import Mathlib

/-!
Verification of the staged-change analyzer of `smart_commit.py`
(`GitAnalyzer.get_staged_changes`, `has_staged_changes`, `_categorize_file`,
`_get_diff_content`, `_get_new_file_diff`, `_count_changes_from_diff`,
`_count_changes`, `_get_change_type`).

The version-control collaborator (git subprocess calls and the GitPython
library) is modelled as an environment `Env` of oracles: each field is the
observable outcome of one kind of external call the Python code makes
(`none` / error constructors standing for a raised exception that the code
catches).  The Python functions are translated line by line into total Lean
functions over that environment.  Python strings are modelled as `List Char`
(`Str`) with structurally recursive operations mirroring the Python string
methods used by the source, so every definition evaluates inside the
kernel; Python integers are unbounded, hence `Int`/`Nat` with no wrap-around.
-/

namespace SmartCommit

/-- A Python string. -/
abbrev Str := List Char

/-- Literal conversion helper. -/
def str (s : String) : Str := s.toList

/-- The newline separator used by `split('\n')`. -/
def NL : Str := ['\n']

/-- The tab separator used by `split('\t')`. -/
def TAB : Str := ['\t']

/-! ## Python string methods -/

/-- Python whitespace as removed by `str.strip()`. -/
def pyIsSpace (c : Char) : Bool :=
  c = ' ' || c = '\t' || c = '\n' || c = '\r' || c = '\x0b' || c = '\x0c'

/-- Python `s.strip()`. -/
def pyStrip (s : Str) : Str :=
  ((s.dropWhile pyIsSpace).reverse.dropWhile pyIsSpace).reverse

/-- Python `s.lower()` (the source only feeds it ASCII-ish paths). -/
def pyToLower (s : Str) : Str :=
  s.map (fun c => if 'A' ≤ c && c ≤ 'Z' then Char.ofNat (c.toNat + 32) else c)

/-- Python `s.startswith(pre)`. -/
def pyStartsWith (s pre : Str) : Bool :=
  pre.isPrefixOf s

/-- Python `s.endswith(suf)`. -/
def pyEndsWith (s suf : Str) : Bool :=
  suf.reverse.isPrefixOf s.reverse

/-- Fuel-driven worker for `pySplitOn`; the fuel (initially the length of
the string) strictly exceeds the remaining suffix length, so the fuel-zero
clause is unreachable. -/
def splitOnGo (sep : Str) : Nat → Str → Str → List Str
  | _, acc, [] => [acc.reverse]
  | 0, acc, rest => [acc.reverse ++ rest]
  | fuel + 1, acc, c :: cs =>
    if pyStartsWith (c :: cs) sep then
      acc.reverse :: splitOnGo sep fuel [] ((c :: cs).drop sep.length)
    else
      splitOnGo sep fuel (c :: acc) cs

/-- Python `s.split(sep)` for a nonempty separator: leftmost,
non-overlapping, keeps empty pieces, `[''] ` on the empty string. -/
def pySplitOn (s sep : Str) : List Str :=
  if sep = [] then [s] else splitOnGo sep s.length [] s

/-- Python `pat in s` (substring containment) for a nonempty pattern. -/
def pySubstr (s pat : Str) : Bool :=
  2 ≤ (pySplitOn s pat).length

/-- Python `s.split('\t', 1)`: at most one split, remainder rejoined. -/
def pySplit1 (s : Str) : List Str :=
  match pySplitOn s TAB with
  | [] => [s]
  | [x] => [x]
  | x :: rest => [x, (rest.intersperse TAB).flatten]

/-- Python `[line.strip() for line in stdout.split('\n') if line.strip()]`. -/
def cleanLines (stdout : Str) : List Str :=
  ((pySplitOn stdout NL).map pyStrip).filter (fun l => l ≠ [])

/-- Helper for `pyInt?`: all-digit parse. -/
def digitsToNat? (cs : Str) : Option Nat :=
  if cs = [] then none
  else if cs.all Char.isDigit then
    some (cs.foldl (fun n c => 10 * n + (c.toNat - 48)) 0)
  else none

/-- Python `int(s)`: optional surrounding whitespace, optional sign, digits;
a `ValueError` is modelled as `none`. -/
def pyInt? (s : Str) : Option Int :=
  match pyStrip s with
  | '-' :: rest => (digitsToNat? rest).map (fun n => -(n : Int))
  | '+' :: rest => (digitsToNat? rest).map (fun n => (n : Int))
  | cs => (digitsToNat? cs).map (fun n => (n : Int))

/-- Python `len(f.readlines())` for a file whose text content is `s`. -/
def readlinesCount (s : Str) : Nat :=
  if s = [] then 0
  else
    let parts := pySplitOn s NL
    if parts.getLastD [] = [] then parts.length - 1 else parts.length

/-- Python `len([l for l in content.split('\n') if l.strip()])`. -/
def nonblankCount (s : Str) : Nat :=
  ((pySplitOn s NL).filter (fun l => pyStrip l ≠ [])).length

/-! ## Subprocess call descriptors -/

/-- One `subprocess.run` invocation: argv plus the `timeout=` keyword
(`none` when the source passes no timeout). -/
structure SubprocessCall where
  argv : List Str
  timeoutSec : Option Nat
deriving DecidableEq, Repr

/-- Call `subprocess.run(['git','diff','--cached','--name-status'], ..., timeout=10)`. -/
def nameStatusCall : SubprocessCall :=
  ⟨[str "git", str "diff", str "--cached", str "--name-status"], some 10⟩

/-- Call `subprocess.run(['git','diff','--cached','--numstat', file_path], ..., timeout=10)`. -/
def numstatCall (p : Str) : SubprocessCall :=
  ⟨[str "git", str "diff", str "--cached", str "--numstat", p], some 10⟩

/-- Call `subprocess.run(['git','diff','--cached', file_path], ..., timeout=10)`
in `_count_changes_from_diff`. -/
def cachedDiffCall (p : Str) : SubprocessCall :=
  ⟨[str "git", str "diff", str "--cached", p], some 10⟩

/-- Call `subprocess.run(['git','diff','--staged', file_path], ..., timeout=10)`
in `_get_diff_content`. -/
def stagedDiffCall (p : Str) : SubprocessCall :=
  ⟨[str "git", str "diff", str "--staged", p], some 10⟩

/-- Call `subprocess.run(['git','diff','--cached','--name-only'], capture_output=True,
text=True, check=True)` in the fresh-repository branch: the source passes NO
timeout keyword here. -/
def nameOnlyCall : SubprocessCall :=
  ⟨[str "git", str "diff", str "--cached", str "--name-only"], none⟩

/-! ## External-call outcome types -/

/-- Outcome of the `git diff --staged <path>` call in `_get_diff_content`:
success with stdout, `subprocess.TimeoutExpired`, `subprocess.CalledProcessError`,
or any other exception. -/
inductive DiffCallResult where
  | ok (stdout : Str)
  | timedOut
  | calledProcessError
  | otherError
deriving DecidableEq, Repr

/-- Kind of exception escaping a file read, as discriminated by the handlers
of `_get_new_file_diff`. -/
inductive PyErrKind where
  | fileNotFound
  | permission
  | other
deriving DecidableEq, Repr

/-- Outcome of `blob = self.repo.index[file_path]; blob.data_stream.read().decode(...)`
inside `_get_new_file_diff`: success, a `KeyError`/`AttributeError` (which the
source catches and answers with the filesystem fallback), or another exception
that escapes to the outer handlers. -/
inductive IdxRead where
  | ok (content : Str)
  | keyError
  | err (k : PyErrKind)
deriving DecidableEq, Repr

/-- Outcome of `open(file_path, ...).read()` in `_get_new_file_diff`. -/
inductive FsRead where
  | ok (content : Str)
  | err (k : PyErrKind)
deriving DecidableEq, Repr

/-- Outcome of the index blob read used for counting lines of a new file
(`get_staged_changes`, new-file passes): full content readable, only
`blob.size` available (the inner content read raised), or the index lookup
itself raised (`missing`; the source then falls back to the filesystem). -/
inductive BlobCount where
  | content (s : Str)
  | sizeOnly (size : Nat)
  | missing
deriving DecidableEq, Repr

/-- One `git.Diff` item of `repo.index.diff("HEAD")` as consumed by the
GitPython fallback pass: the fields the source reads. -/
structure GitPyItem where
  aPath : Option Str
  bPath : Option Str
  newFile : Bool
  deletedFile : Bool
  renamedFile : Bool
deriving DecidableEq, Repr

/-- One element of the `staged_files` list built by `get_staged_changes`. -/
structure ChangeRecord where
  path : Str
  type : Str
  file_type : Str
  additions : Int
  deletions : Int
  diff : Str
deriving DecidableEq, Repr

/-- The dict returned by `get_staged_changes`. -/
structure ChangeSet where
  files : List ChangeRecord
  total_additions : Int
  total_deletions : Int
  file_count : Nat
deriving DecidableEq, Repr

/-- Environment of external-call outcomes for one `get_staged_changes` run.
`none` on an `Option` field means the corresponding call raised (and the
source catches the exception at that site). -/
structure Env where
  /-- whether `self.repo.head.commit` resolves (repository has commits) -/
  hasCommits : Bool
  /-- stdout of `git diff --cached --name-status` -/
  nameStatusOut : Option Str
  /-- stdout of `git diff --cached --numstat <p>` -/
  numstatOut : Str → Option Str
  /-- stdout of `git diff --cached <p>` (used by `_count_changes_from_diff`) -/
  cachedDiffOut : Str → Option Str
  /-- outcome of `git diff --staged <p>` (used by `_get_diff_content`) -/
  stagedDiff : Str → DiffCallResult
  /-- items of `repo.index.diff("HEAD")` in the GitPython fallback pass -/
  gitpyItems : Option (List GitPyItem)
  /-- decoded diff texts of `repo.index.diff("HEAD", paths=[p])` -/
  pathDiffTexts : Str → Option (List Str)
  /-- stdout of `git diff --cached --name-only` (fresh-repository pass) -/
  nameOnlyOut : Option Str
  /-- path components of `self.repo.index.entries.keys()` -/
  indexEntryKeys : Option (List Str)
  /-- index blob read for new-file line counting -/
  blobCount : Str → BlobCount
  /-- content behind `open(p).readlines()` for new-file line counting -/
  fsLineRead : Str → Option Str
  /-- the `a_path` of the items of `repo.index.diff(head_commit)` whose `new_file`
  flag is set (the new-file completion pass for repositories with commits) -/
  idxHeadNewPaths : Option (List (Option Str))
  /-- index blob read inside `_get_new_file_diff` -/
  newFileIdxRead : Str → IdxRead
  /-- filesystem read inside `_get_new_file_diff` -/
  newFileFsRead : Str → FsRead

/-! ## `_categorize_file` -/

/-- Model of `GitAnalyzer._categorize_file`, translated clause by clause. -/
def categorize_file (file_path : Str) : Str :=
  let p := pyToLower file_path
  if pyEndsWith p (str ".py") then
    if pySubstr p (str "migration") || pySubstr p (str "migrations") then str "migration"
    else if pySubstr p (str "test") || pySubstr p (str "tests") then str "test"
    else if pySubstr p (str "model") || pySubstr p (str "models") then str "model"
    else if pySubstr p (str "api") then str "api"
    else if pySubstr p (str "config") || pySubstr p (str "settings") then str "config"
    else str "python"
  else if pyEndsWith p (str ".js") || pyEndsWith p (str ".jsx") ||
      pyEndsWith p (str ".ts") || pyEndsWith p (str ".tsx") then
    str "javascript"
  else if pyEndsWith p (str ".json") || pyEndsWith p (str ".yaml") ||
      pyEndsWith p (str ".yml") then
    str "config"
  else if pyEndsWith p (str ".md") || pyEndsWith p (str ".txt") ||
      pyEndsWith p (str ".rst") then
    str "documentation"
  else if pySubstr p (str "dockerfile") || pySubstr p (str "docker-compose") then
    str "docker"
  else if pySubstr p (str "requirements") || pySubstr p (str "setup.py") ||
      pySubstr p (str "pyproject.toml") then
    str "dependencies"
  else str "other"

/-! ## Diff-stat helpers -/

/-- The `+`/`-` line-counting loop shared by `_count_changes` and
`_count_changes_from_diff`: lines starting with `+` (but not `+++`) are
additions, lines starting with `-` (but not `---`) are deletions. -/
def countPlusMinus (text : Str) : Int × Int :=
  (pySplitOn text NL).foldl
    (fun ad line =>
      if pyStartsWith line (str "+") && !(pyStartsWith line (str "+++")) then
        (ad.1 + 1, ad.2)
      else if pyStartsWith line (str "-") && !(pyStartsWith line (str "---")) then
        (ad.1, ad.2 + 1)
      else ad)
    ((0 : Int), (0 : Int))

/-- Model of `GitAnalyzer._count_changes_from_diff` (value; any exception of the
subprocess call yields `(0, 0)`). -/
def count_changes_from_diff (env : Env) (p : Str) : Int × Int :=
  match env.cachedDiffOut p with
  | some out => countPlusMinus out
  | none => (0, 0)

/-- Model of `GitAnalyzer._count_changes`: sum the `+`/`-` counts over the decoded
diff texts of a diff index. -/
def count_changes (texts : List Str) : Int × Int :=
  texts.foldl
    (fun acc t =>
      let ad := countPlusMinus t
      (acc.1 + ad.1, acc.2 + ad.2))
    ((0 : Int), (0 : Int))

/-- Parse of a non-empty stripped numstat line `additions\tdeletions\tfile`:
`-` counts as 0; fewer than two fields or an `int()` `ValueError` means the
source takes the `_count_changes_from_diff` fallback (`none` here). -/
def numstatParse (stats_line : Str) : Option (Int × Int) :=
  let stats_parts := pySplitOn stats_line TAB
  if 2 ≤ stats_parts.length then
    let f0 := stats_parts.headD []
    let f1 := (stats_parts.drop 1).headD []
    let a? : Option Int := if f0 = str "-" then some 0 else pyInt? f0
    let d? : Option Int := if f1 = str "-" then some 0 else pyInt? f1
    match a?, d? with
    | some a, some d => some (a, d)
    | _, _ => none
  else none

/-- The numstat block of `get_staged_changes` for one path: parse
`additions\tdeletions\tfile`, falling back to `_count_changes_from_diff`
when the call fails, the output is empty, or the line does not parse.
Also returns the subprocess calls made. -/
def resolveStats (env : Env) (p : Str) : (Int × Int) × List SubprocessCall :=
  match env.numstatOut p with
  | none => (count_changes_from_diff env p, [numstatCall p, cachedDiffCall p])
  | some out =>
    if pyStrip out = [] then
      (count_changes_from_diff env p, [numstatCall p, cachedDiffCall p])
    else
      match numstatParse (pyStrip out) with
      | some ad => (ad, [numstatCall p])
      | none => (count_changes_from_diff env p, [numstatCall p, cachedDiffCall p])

/-! ## Diff excerpts -/

/-- The marker appended when a diff excerpt is cut:
`f"\n... (truncated, showing first {max_lines} lines)"`. -/
def truncMarker (max_lines : Nat) : Str :=
  str "\n... (truncated, showing first " ++ Nat.toDigits 10 max_lines ++ str " lines)"

/-- The truncation step shared (verbatim in the source) by `_get_diff_content`
and `_get_new_file_diff`: keep the first `max_lines` lines and append the
marker when the text is longer. -/
def mkTruncated (text : Str) (max_lines : Nat) : Str :=
  let diff_lines := pySplitOn text NL
  if max_lines < diff_lines.length then
    ((diff_lines.take max_lines).intersperse NL).flatten ++ truncMarker max_lines
  else text

/-- Model of `GitAnalyzer._get_diff_content` (the source always calls it with the
default `max_lines=100`). -/
def get_diff_content (env : Env) (p : Str) (max_lines : Nat) : Str :=
  match env.stagedDiff p with
  | .ok stdout => if stdout = [] then [] else mkTruncated stdout max_lines
  | .timedOut => str "# Timeout reading diff for " ++ p
  | .calledProcessError => []
  | .otherError => []

/-- The stub comment `_get_new_file_diff` produces for each handled
exception kind. -/
def stubFor : PyErrKind → Str
  | .fileNotFound => str "# File not found"
  | .permission => str "# Permission denied"
  | .other => str "# Error reading file"

/-- Model of `GitAnalyzer._get_new_file_diff`: read the staged blob, fall back to the
working tree on `KeyError`/`AttributeError`, truncate to `max_lines`, and
prepend the `+++ <path>` header; every failure yields the header plus a
one-line stub. -/
def get_new_file_diff (env : Env) (p : Str) (max_lines : Nat) : Str :=
  match env.newFileIdxRead p with
  | .ok content => str "+++ " ++ p ++ str "\n" ++ mkTruncated content max_lines
  | .err k => str "+++ " ++ p ++ str "\n" ++ stubFor k
  | .keyError =>
    match env.newFileFsRead p with
    | .ok content => str "+++ " ++ p ++ str "\n" ++ mkTruncated content max_lines
    | .err k => str "+++ " ++ p ++ str "\n" ++ stubFor k

/-- The new-file line-count block of `get_staged_changes`: blob content
(count of non-blank lines), else `blob.size // 80`, else
`len(open(p).readlines())`, else 0. -/
def newFileAdditions (env : Env) (p : Str) : Int :=
  match env.blobCount p with
  | .content s => (nonblankCount s : Int)
  | .sizeOnly size => if 0 < size then ((size / 80 : Nat) : Int) else 0
  | .missing =>
    match env.fsLineRead p with
    | some s => (readlinesCount s : Int)
    | none => 0

/-- Model of `GitAnalyzer._get_change_type`. -/
def get_change_type (it : GitPyItem) : Str :=
  if it.newFile then str "added"
  else if it.deletedFile then str "deleted"
  else if it.renamedFile then str "renamed"
  else str "modified"

/-! ## The aggregator (`get_staged_changes`)

The running state of one invocation: `staged_files`, the two totals, the
`processed_paths` set (which can hold Python `None` after a degenerate
GitPython item, hence `Option Str`), and the trace of `subprocess.run`
invocations made so far. -/

structure AggState where
  files : List ChangeRecord
  ta : Int
  td : Int
  processed : List (Option Str)
  trace : List SubprocessCall
deriving DecidableEq, Repr

/-- Python `processed_paths.add(p)`. -/
def markPath (st : AggState) (p? : Option Str) : AggState :=
  { st with processed := p? :: st.processed }

/-- Append one record, add its counts to the running totals, and record the
subprocess calls made while building it (the shape every append site of the
source has). -/
def pushRec (st : AggState) (r : ChangeRecord) (tr : List SubprocessCall) : AggState :=
  { st with
    files := st.files ++ [r]
    ta := st.ta + r.additions
    td := st.td + r.deletions
    trace := st.trace ++ tr }

/-- The staged-change lines of the status pass:
`[line.strip() for line in stdout.split('\n') if line.strip()]`, or `[]`
when the listing call raised. -/
def stagedChangesLines (env : Env) : List Str :=
  match env.nameStatusOut with
  | some out => cleanLines out
  | none => []

/-- One iteration of the status-pass loop of `get_staged_changes`: parse
`status\tfile_path`, skip processed paths, derive the change type from the
status code, resolve stats, categorize, fetch the diff excerpt, append. -/
def pass1Step (env : Env) (st : AggState) (change_line : Str) : AggState :=
  if change_line = [] then st
  else
    match pySplit1 change_line with
    | [status, file_path] =>
      if some file_path ∈ st.processed then st
      else
        let change_type :=
          if pyStartsWith status (str "A") then str "added"
          else if pyStartsWith status (str "D") then str "deleted"
          else if pyStartsWith status (str "R") || pyStartsWith status (str "C") then
            str "renamed"
          else str "modified"
        let rs := resolveStats env file_path
        pushRec (markPath st (some file_path))
          ⟨file_path, change_type, categorize_file file_path,
            rs.1.1, rs.1.2, get_diff_content env file_path 100⟩
          (rs.2 ++ [stagedDiffCall file_path])
    | _ => st

/-- The status pass: fold the parsed listing lines. -/
def pass1 (env : Env) (st : AggState) : AggState :=
  (stagedChangesLines env).foldl (pass1Step env) st

/-- Python `item.a_path if item.a_path else item.b_path` (truthiness:
`None` and the empty string are falsy). -/
def itemPath (it : GitPyItem) : Option Str :=
  match it.aPath with
  | some s => if s = [] then it.bPath else some s
  | none => it.bPath

/-- The GitPython fallback loop body.  A raised exception anywhere in the
loop is caught by the surrounding `except Exception: pass`, abandoning the
remaining items; the two abort points are a `None`/falsy path (the
per-path `index.diff` call then raises) and a failing per-path
`index.diff("HEAD", paths=[p])` call. -/
def pass2Go (env : Env) : List GitPyItem → AggState → AggState
  | [], st => st
  | it :: rest, st =>
    match itemPath it with
    | none =>
      if (none : Option Str) ∈ st.processed then pass2Go env rest st
      else markPath st none
    | some p =>
      if some p ∈ st.processed then pass2Go env rest st
      else
        let st1 := markPath st (some p)
        match env.pathDiffTexts p with
        | none => st1
        | some texts =>
          let ad := count_changes texts
          pass2Go env rest
            (pushRec st1
              ⟨p, get_change_type it, categorize_file p, ad.1, ad.2,
                get_diff_content env p 100⟩
              [stagedDiffCall p])

/-- The GitPython fallback pass, entered only when the status pass produced
no records and the repository has commits
(`if not staged_files and has_commits`). -/
def pass2 (env : Env) (st : AggState) : AggState :=
  if st.files = [] && env.hasCommits then
    match env.gitpyItems with
    | none => st
    | some items => pass2Go env items st
  else st

/-- Staged-path list of the fresh-repository pass: the `--name-only`
listing, else the index entries, else `[]`. -/
def pass3FreshList (env : Env) : List Str :=
  match env.nameOnlyOut with
  | some out => cleanLines out
  | none =>
    match env.indexEntryKeys with
    | some ks => ks
    | none => []

/-- One iteration of the fresh-repository new-file loop: skip falsy or
processed paths, count lines via the blob strategy, append as `added` with
0 deletions. -/
def pass3FreshStep (env : Env) (st : AggState) (file_path : Str) : AggState :=
  if file_path = [] ∨ some file_path ∈ st.processed then st
  else
    pushRec (markPath st (some file_path))
      ⟨file_path, str "added", categorize_file file_path,
        newFileAdditions env file_path, 0, get_new_file_diff env file_path 100⟩
      []

/-- The new-file completion loop for repositories with commits: iterate the
`new_file`-flagged items of `repo.index.diff(head_commit)`.  A `None`
`a_path` makes `_categorize_file(None)` raise after the (zero) additions
were added to the total, so the surrounding `except Exception: pass`
abandons the remaining items with the totals unchanged. -/
def pass3CommitsGo (env : Env) : List (Option Str) → AggState → AggState
  | [], st => st
  | p? :: rest, st =>
    if p? ∈ st.processed then pass3CommitsGo env rest st
    else
      match p? with
      | none => markPath st none
      | some p =>
        pass3CommitsGo env rest
          (pushRec (markPath st (some p))
            ⟨p, str "added", categorize_file p,
              newFileAdditions env p, 0, get_new_file_diff env p 100⟩
            [])

/-- The final state of one `get_staged_changes` run: status pass, GitPython
fallback pass, then the new-file completion pass (fresh-repository variant
or index-vs-HEAD variant). -/
def aggFinal (env : Env) : AggState :=
  let st0 : AggState := ⟨[], 0, 0, [], [nameStatusCall]⟩
  let st1 := pass1 env st0
  let st2 := pass2 env st1
  if env.hasCommits then
    match env.idxHeadNewPaths with
    | none => st2
    | some ps => pass3CommitsGo env ps st2
  else
    (pass3FreshList env).foldl (pass3FreshStep env)
      { st2 with trace := st2.trace ++ [nameOnlyCall] }

/-- Model of `GitAnalyzer.get_staged_changes` together with the trace of
`subprocess.run` invocations the run makes. -/
def getStagedChangesT (env : Env) : ChangeSet × List SubprocessCall :=
  let st := aggFinal env
  (⟨st.files, st.ta, st.td, st.files.length⟩, st.trace)

/-- Model of `GitAnalyzer.get_staged_changes` (the returned dict). -/
def get_staged_changes (env : Env) : ChangeSet :=
  (getStagedChangesT env).1

/-! ## `has_staged_changes` -/

/-- Outcome of `self.repo.head.commit` inside `has_staged_changes`:
resolves, raises `ValueError`/`git.BadName` (no commits), or raises
something else (caught by the outer handler). -/
inductive HeadRes where
  | ok
  | noCommits
  | otherError
deriving DecidableEq, Repr

/-- Environment for one `has_staged_changes` call. -/
structure HsEnv where
  /-- value of `len(self.repo.index.entries)`; `none` = the access raised -/
  entriesLen : Option Nat
  headRes : HeadRes
  /-- value of `len(self.repo.index.diff("HEAD"))`; `none` = the call raised -/
  diffHeadLen : Option Nat
  /-- the `new_file` flags of the items of `repo.index.diff(head_commit)`;
  `none` = the call raised -/
  newFileFlags : Option (List Bool)

/-- Model of `GitAnalyzer.has_staged_changes`, translated branch by branch. -/
def has_staged_changes (e : HsEnv) : Bool :=
  match e.entriesLen with
  | none => false
  | some n =>
    if n = 0 then false
    else
      match e.headRes with
      | .noCommits => decide (0 < n)
      | .otherError => false
      | .ok =>
        match e.diffHeadLen with
        | none => decide (0 < n)
        | some m =>
          if 0 < m then true
          else
            match e.newFileFlags with
            | none => decide (0 < n)
            | some flags => flags.any id

/-! ## Run invariants

`StInv` bundles the facts maintained by every append site of
`get_staged_changes`: path dedup backed by `processed_paths`, the running
totals matching the per-record sums, and every traced subprocess call being
one of the five call sites (all with `timeout=10` except the fresh-repository
`--name-only` listing). -/

def pathsOf (l : List ChangeRecord) : List Str := l.map (fun r => r.path)

def sumAdd (l : List ChangeRecord) : Int := (l.map (fun r => r.additions)).sum

def sumDel (l : List ChangeRecord) : Int := (l.map (fun r => r.deletions)).sum

def GoodCall (c : SubprocessCall) : Prop := c.timeoutSec = some 10 ∨ c = nameOnlyCall

def StInv (st : AggState) : Prop :=
  (pathsOf st.files).Nodup ∧
  (∀ r ∈ st.files, some r.path ∈ st.processed) ∧
  st.ta = sumAdd st.files ∧
  st.td = sumDel st.files ∧
  ∀ c ∈ st.trace, GoodCall c

theorem goodCall_numstat (p : Str) : GoodCall (numstatCall p) := Or.inl rfl

theorem goodCall_cachedDiff (p : Str) : GoodCall (cachedDiffCall p) := Or.inl rfl

theorem goodCall_stagedDiff (p : Str) : GoodCall (stagedDiffCall p) := Or.inl rfl

theorem resolveStats_trace (env : Env) (p : Str) :
    (resolveStats env p).2 = [numstatCall p] ∨
    (resolveStats env p).2 = [numstatCall p, cachedDiffCall p] := by
  unfold resolveStats
  cases env.numstatOut p with
  | none => exact Or.inr rfl
  | some out =>
    dsimp only
    by_cases h1 : pyStrip out = []
    · rw [if_pos h1]
      exact Or.inr rfl
    · rw [if_neg h1]
      cases numstatParse (pyStrip out) with
      | none => exact Or.inr rfl
      | some ad => exact Or.inl rfl

theorem goodCall_resolveStats (env : Env) (p : Str) :
    ∀ c ∈ (resolveStats env p).2, GoodCall c := by
  intro c hc
  rcases resolveStats_trace env p with h | h <;> rw [h] at hc <;>
    simp only [List.mem_cons, List.mem_singleton, List.not_mem_nil, or_false] at hc
  · subst hc
    exact goodCall_numstat p
  · rcases hc with hc | hc <;> subst hc
    · exact goodCall_numstat p
    · exact goodCall_cachedDiff p

theorem stInv_mark (st : AggState) (p? : Option Str) (h : StInv st) :
    StInv (markPath st p?) := by
  obtain ⟨h1, h2, h3, h4, h5⟩ := h
  exact ⟨h1, fun r hr => List.mem_cons_of_mem _ (h2 r hr), h3, h4, h5⟩

theorem stInv_markPush (st : AggState) (r : ChangeRecord) (tr : List SubprocessCall)
    (h : StInv st) (hp : some r.path ∉ st.processed)
    (htr : ∀ c ∈ tr, GoodCall c) :
    StInv (pushRec (markPath st (some r.path)) r tr) := by
  obtain ⟨h1, h2, h3, h4, h5⟩ := h
  have hnotin : r.path ∉ pathsOf st.files := by
    intro hmem
    obtain ⟨r', hr', hpath⟩ := List.mem_map.mp hmem
    exact hp (hpath ▸ h2 r' hr')
  refine ⟨?_, ?_, ?_, ?_, ?_⟩
  · show (pathsOf (st.files ++ [r])).Nodup
    have hmapapp : pathsOf (st.files ++ [r]) = pathsOf st.files ++ [r.path] := by
      simp [pathsOf]
    rw [hmapapp, List.nodup_append]
    refine ⟨h1, List.nodup_singleton _, ?_⟩
    intro a ha hb
    simp only [List.mem_singleton] at hb
    subst hb
    exact hnotin ha
  · intro r' hr'
    rcases List.mem_append.mp hr' with hold | hnew
    · exact List.mem_cons_of_mem _ (h2 r' hold)
    · simp only [List.mem_singleton] at hnew
      subst hnew
      exact List.mem_cons_self _ _
  · simp [pushRec, markPath, sumAdd, h3]
  · simp [pushRec, markPath, sumDel, h4]
  · intro c hc
    rcases List.mem_append.mp hc with hc | hc
    · exact h5 c hc
    · exact htr c hc

theorem pass1Step_inv (env : Env) (st : AggState) (l : Str) (h : StInv st) :
    StInv (pass1Step env st l) := by
  unfold pass1Step
  split
  · exact h
  · split
    · split
      · exact h
      next hp =>
        refine stInv_markPush _ _ _ h hp ?_
        intro c hc
        rcases List.mem_append.mp hc with hc | hc
        · exact goodCall_resolveStats env _ c hc
        · simp only [List.mem_singleton] at hc
          subst hc
          exact goodCall_stagedDiff _
    · exact h

theorem pass1_fold_inv (env : Env) (ls : List Str) (st : AggState) (h : StInv st) :
    StInv (ls.foldl (pass1Step env) st) := by
  induction ls generalizing st with
  | nil => exact h
  | cons l ls ih => exact ih _ (pass1Step_inv env st l h)

theorem pass2Go_inv (env : Env) (items : List GitPyItem) (st : AggState) (h : StInv st) :
    StInv (pass2Go env items st) := by
  induction items generalizing st with
  | nil => exact h
  | cons it rest ih =>
    unfold pass2Go
    split
    · split
      · exact ih _ h
      · exact stInv_mark _ _ h
    · split
      · exact ih _ h
      next hp =>
        split
        · exact stInv_mark _ _ h
        · refine ih _ (stInv_markPush _ _ _ h hp ?_)
          intro c hc
          simp only [List.mem_singleton] at hc
          subst hc
          exact goodCall_stagedDiff _

theorem pass2_inv (env : Env) (st : AggState) (h : StInv st) : StInv (pass2 env st) := by
  unfold pass2
  split
  · split
    · exact h
    · exact pass2Go_inv env _ st h
  · exact h

theorem pass3FreshStep_inv (env : Env) (st : AggState) (p : Str) (h : StInv st) :
    StInv (pass3FreshStep env st p) := by
  unfold pass3FreshStep
  split
  · exact h
  next hcond =>
    have hp : some p ∉ st.processed := fun hmem => hcond (Or.inr hmem)
    exact stInv_markPush _ _ _ h hp (by intro c hc; simp at hc)

theorem pass3Fresh_fold_inv (env : Env) (ps : List Str) (st : AggState) (h : StInv st) :
    StInv (ps.foldl (pass3FreshStep env) st) := by
  induction ps generalizing st with
  | nil => exact h
  | cons p ps ih => exact ih _ (pass3FreshStep_inv env st p h)

theorem pass3CommitsGo_inv (env : Env) (ps : List (Option Str)) (st : AggState)
    (h : StInv st) : StInv (pass3CommitsGo env ps st) := by
  induction ps generalizing st with
  | nil => exact h
  | cons p? rest ih =>
    unfold pass3CommitsGo
    split
    · exact ih _ h
    next hp =>
      split
      · exact stInv_mark _ _ h
      · exact ih _ (stInv_markPush _ _ _ h hp (by intro c hc; simp at hc))

theorem stInv_traceAppendNameOnly (st : AggState) (h : StInv st) :
    StInv { st with trace := st.trace ++ [nameOnlyCall] } := by
  obtain ⟨h1, h2, h3, h4, h5⟩ := h
  refine ⟨h1, h2, h3, h4, ?_⟩
  intro c hc
  rcases List.mem_append.mp hc with hc | hc
  · exact h5 c hc
  · simp only [List.mem_singleton] at hc
    subst hc
    exact Or.inr rfl

theorem stInv_init : StInv ⟨[], 0, 0, [], [nameStatusCall]⟩ := by
  refine ⟨List.nodup_nil, by intro r hr; simp at hr, rfl, rfl, ?_⟩
  intro c hc
  simp only [List.mem_singleton] at hc
  subst hc
  exact Or.inl rfl

theorem aggFinal_inv (env : Env) : StInv (aggFinal env) := by
  unfold aggFinal
  have h1 := pass1_fold_inv env (stagedChangesLines env) _ stInv_init
  have h2 := pass2_inv env _ h1
  split
  · split
    · exact h2
    · exact pass3CommitsGo_inv env _ _ h2
  · exact pass3Fresh_fold_inv env _ _ (stInv_traceAppendNameOnly _ h2)

/-! ## Concrete environments used by witnesses and counterexamples -/

/-- An environment in which every external call fails (every `Option` oracle
raised, every read errored): the degenerate baseline the other concrete
environments are built from. -/
def noopEnv : Env :=
  { hasCommits := false
    nameStatusOut := none
    numstatOut := fun _ => none
    cachedDiffOut := fun _ => none
    stagedDiff := fun _ => .calledProcessError
    gitpyItems := none
    pathDiffTexts := fun _ => none
    nameOnlyOut := none
    indexEntryKeys := none
    blobCount := fun _ => .missing
    fsLineRead := fun _ => none
    idxHeadNewPaths := none
    newFileIdxRead := fun _ => .keyError
    newFileFsRead := fun _ => .err .fileNotFound }

/-! ## C1, C2: dedup and totals invariants -/

/-- C1: for every repository state (environment of external-call outcomes),
the ChangeSet returned by one `get_staged_changes` invocation contains at
most one record per distinct file path — the list of record paths has no
duplicates, regardless of which discovery passes contributed records. -/
theorem get_staged_changes_path_nodup (env : Env) :
    ((get_staged_changes env).files.map (fun r => r.path)).Nodup :=
  (aggFinal_inv env).1

/-- C2: for every `get_staged_changes` result, the reported total additions
equal the sum of the per-record additions, and likewise for deletions. -/
theorem get_staged_changes_totals (env : Env) :
    (get_staged_changes env).total_additions =
      ((get_staged_changes env).files.map (fun r => r.additions)).sum ∧
    (get_staged_changes env).total_deletions =
      ((get_staged_changes env).files.map (fun r => r.deletions)).sum :=
  ⟨(aggFinal_inv env).2.2.1, (aggFinal_inv env).2.2.2.1⟩

/-! ## C8: subprocess timeouts -/

/-- C8 (amended): every `subprocess.run` invocation of one analysis run
carries `timeout=10` EXCEPT the fresh-repository staged-path enumeration
(`git diff --cached --name-only`), which the source invokes with no timeout
at all. -/
theorem subprocess_calls_timeout (env : Env) :
    (∀ c ∈ (getStagedChangesT env).2, c.timeoutSec = some 10 ∨ c = nameOnlyCall) ∧
    nameOnlyCall.timeoutSec = none :=
  ⟨fun c hc => (aggFinal_inv env).2.2.2.2 c hc, rfl⟩

/-- Witness for `subprocess_calls_timeout` at a concrete environment and a
concrete traced call. -/
theorem subprocess_calls_timeout_witness :
    nameStatusCall ∈ (getStagedChangesT noopEnv).2 ∧
    (nameStatusCall.timeoutSec = some 10 ∨ nameStatusCall = nameOnlyCall) ∧
    nameOnlyCall.timeoutSec = none :=
  ⟨by decide, (subprocess_calls_timeout noopEnv).1 nameStatusCall (by decide),
    (subprocess_calls_timeout noopEnv).2⟩

/-- C8 counterexample: in a fresh-repository run the `--name-only`
enumeration is invoked, and that invocation does not carry the 10-second
timeout — refuting the claim that every version-control subprocess
invocation of the run is made with an explicit 10-second timeout. -/
theorem name_only_call_without_timeout :
    nameOnlyCall ∈ (getStagedChangesT noopEnv).2 ∧
    ¬ nameOnlyCall.timeoutSec = some 10 := by
  decide

/-! ## C9: behaviour when every enumeration strategy fails -/

/-- C9 (amended): when the staged-path listing and every fallback
enumeration fail, `get_staged_changes` does not propagate any error — it
catches every exception and returns the empty ChangeSet (no records, zero
totals, zero count). -/
theorem enumeration_failure_returns_empty (env : Env)
    (h1 : env.nameStatusOut = none)
    (h2 : env.hasCommits = true → env.gitpyItems = none ∧ env.idxHeadNewPaths = none)
    (h3 : env.hasCommits = false → env.nameOnlyOut = none ∧ env.indexEntryKeys = none) :
    get_staged_changes env = ⟨[], 0, 0, 0⟩ := by
  cases henv : env.hasCommits with
  | true =>
    obtain ⟨hg, hx⟩ := h2 henv
    simp [get_staged_changes, getStagedChangesT, aggFinal, pass1, pass2, pass3FreshList,
      stagedChangesLines, cleanLines, h1, hg, hx, henv]
  | false =>
    obtain ⟨hn, hk⟩ := h3 henv
    simp [get_staged_changes, getStagedChangesT, aggFinal, pass1, pass2, pass3FreshList,
      stagedChangesLines, cleanLines, h1, hn, hk, henv]

/-- Witness for `enumeration_failure_returns_empty` at the all-failing
environment. -/
theorem enumeration_failure_returns_empty_witness :
    noopEnv.nameStatusOut = none ∧ get_staged_changes noopEnv = ⟨[], 0, 0, 0⟩ :=
  ⟨rfl, enumeration_failure_returns_empty noopEnv rfl
    (fun h => by simp [noopEnv] at h) (fun _ => ⟨rfl, rfl⟩)⟩

/-- C9 counterexample: with every enumeration strategy failing, the run
RETURNS the (empty) ChangeSet; no `AnalysisFailed` error is propagated —
`get_staged_changes` is a total function of the environment, because the
source wraps each enumeration strategy in an exception handler that
degrades to an empty list. -/
theorem all_strategies_fail_returns_empty_changeset :
    (get_staged_changes noopEnv).files = [] ∧
    (get_staged_changes noopEnv).file_count = 0 := by
  decide

/-! ## C4: the rename scenario -/

/-- Environment of the rename-only scenario (stage `git mv old.py new.py`
with no content change, repository with commits): the status listing
reports the single line `R100\told.py\tnew.py`; because the source passes
the tab-joined remainder `old.py\tnew.py` as a pathspec/revision argument,
the per-path numstat/diff calls fail; GitPython produces
`index.diff(head_commit)` with an inverted `R` flag (index→HEAD
direction), so the staged-deleted old path `old.py` is the item carrying
the `new_file` flag; `old.py` exists neither in the index nor in the
working tree any more. -/
def renameEnv : Env :=
  { noopEnv with
    hasCommits := true
    nameStatusOut := some (str "R100\told.py\tnew.py\n")
    gitpyItems := some []
    idxHeadNewPaths := some [some (str "old.py")] }

/-- C4 counterexample: in the rename scenario the result is NOT one record
with path `new.py` — no record has path `new.py` at all, because the
status pass splits the rename line only once and stores the tab-joined
`old.py\tnew.py`. -/
theorem rename_scenario_counterexample :
    ¬ ((get_staged_changes renameEnv).files.length = 1 ∧
       ∃ r ∈ (get_staged_changes renameEnv).files, r.path = str "new.py") := by
  decide

/-- C4 (amended): in the rename scenario `get_staged_changes` produces two
records: the status-pass record with the tab-joined path `old.py\tnew.py`,
change type `renamed`, additions 0 and deletions 0, and a second record
`old.py` typed `added` with 0/0 contributed by the new-file completion
pass; no record carries the path `new.py`. -/
theorem rename_scenario_actual :
    (get_staged_changes renameEnv).files.map
        (fun r => (r.path, r.type, r.additions, r.deletions)) =
      [(str "old.py\tnew.py", str "renamed", 0, 0), (str "old.py", str "added", 0, 0)] ∧
    ∀ r ∈ (get_staged_changes renameEnv).files, r.path ≠ str "new.py" := by
  decide

/-! ## C5: `has_staged_changes` with an empty index -/

/-- C5: evaluation of `has_staged_changes` at the failing input — a
repository with commits whose every tracked file has its deletion staged:
the index is empty (`len(index.entries) == 0`) while the index differs from
HEAD (`len(index.diff("HEAD")) == 1`).  The claim (and the function's own
docstring) require `True`; the code short-circuits on the empty index and
returns `False`. -/
theorem has_staged_changes_staged_deletions_false :
    has_staged_changes ⟨some 0, .ok, some 1, some [true]⟩ = false := rfl

/-! ## C6: classifier segment vs substring -/

/-- Modelled from the spec's words, for comparison only: "contains a `seg`
path segment" read as one of the `/`-separated components of the lowercased
path being exactly `seg`. -/
def specHasSegment (p seg : Str) : Bool :=
  (pySplitOn (pyToLower p) (str "/")).contains seg

/-- C6 counterexample: `latest.py` contains no `test`/`tests` path segment,
yet `_categorize_file` classifies it as `test` (substring match inside
`latest`), not as the Python-generic category the claim requires. -/
theorem categorize_latest_py_counterexample :
    categorize_file (str "latest.py") = str "test" ∧
    specHasSegment (str "latest.py") (str "test") = false ∧
    specHasSegment (str "latest.py") (str "tests") = false := by
  decide

/-- C6 (amended): for every path whose lowercase form ends in `.py`, the
classifier returns `test` iff the lowercased path contains `test` (or
`tests`) as a SUBSTRING and does not contain `migration`/`migrations` as a
substring. -/
theorem categorize_test_iff_substring (s : Str)
    (h : pyEndsWith (pyToLower s) (str ".py") = true) :
    (categorize_file s = str "test" ↔
      ((pySubstr (pyToLower s) (str "test") || pySubstr (pyToLower s) (str "tests")) = true ∧
       (pySubstr (pyToLower s) (str "migration") ||
          pySubstr (pyToLower s) (str "migrations")) = false)) := by
  unfold categorize_file
  dsimp only
  rw [h]
  simp only [eq_self_iff_true, if_true]
  by_cases hm :
      (pySubstr (pyToLower s) (str "migration") ||
        pySubstr (pyToLower s) (str "migrations")) = true
  · simp [hm]
    decide
  · by_cases ht :
        (pySubstr (pyToLower s) (str "test") || pySubstr (pyToLower s) (str "tests")) = true
    · simp [hm, ht]
    · rw [if_neg hm, if_neg ht]
      constructor
      · intro hEq
        exfalso
        split_ifs at hEq <;> revert hEq <;> decide
      · intro hc
        exact absurd hc.1 ht

/-- Witness for `categorize_test_iff_substring` at `latest.py`. -/
theorem categorize_test_iff_substring_witness :
    pyEndsWith (pyToLower (str "latest.py")) (str ".py") = true ∧
    (categorize_file (str "latest.py") = str "test" ↔
      ((pySubstr (pyToLower (str "latest.py")) (str "test") ||
          pySubstr (pyToLower (str "latest.py")) (str "tests")) = true ∧
       (pySubstr (pyToLower (str "latest.py")) (str "migration") ||
          pySubstr (pyToLower (str "latest.py")) (str "migrations")) = false)) :=
  ⟨by decide, categorize_test_iff_substring (str "latest.py") (by decide)⟩

/-! ## C10: `_get_new_file_diff` totality -/

/-- Both the staged blob and the working-tree file are unreadable for `p`. -/
def newFileUnreadable (env : Env) (p : Str) : Bool :=
  match env.newFileIdxRead p with
  | .ok _ => false
  | .err _ => true
  | .keyError =>
    match env.newFileFsRead p with
    | .ok _ => false
    | .err _ => true

theorem headerAppend_ne_empty (p r : Str) : str "+++ " ++ p ++ str "\n" ++ r ≠ [] := by
  intro h
  have hlen := congrArg List.length h
  simp [List.length_append, str] at hlen

/-- C10: `_get_new_file_diff` is total and never empty — for every
environment it returns `+++ <path>\n` followed by further text, and when
both the staged blob and the working-tree file are unreadable it returns
that header followed by a one-line stub comment instead of raising. -/
theorem new_file_diff_header_total (env : Env) (p : Str) :
    (∃ rest, get_new_file_diff env p 100 = str "+++ " ++ p ++ str "\n" ++ rest) ∧
    get_new_file_diff env p 100 ≠ [] ∧
    (newFileUnreadable env p = true →
      ∃ k : PyErrKind,
        get_new_file_diff env p 100 = str "+++ " ++ p ++ str "\n" ++ stubFor k) := by
  have hex : ∃ rest, get_new_file_diff env p 100 = str "+++ " ++ p ++ str "\n" ++ rest := by
    rcases hidx : env.newFileIdxRead p with content | _ | k
    · exact ⟨mkTruncated content 100, by simp [get_new_file_diff, hidx]⟩
    · rcases hfs : env.newFileFsRead p with content | k
      · exact ⟨mkTruncated content 100, by simp [get_new_file_diff, hidx, hfs]⟩
      · exact ⟨stubFor k, by simp [get_new_file_diff, hidx, hfs]⟩
    · exact ⟨stubFor k, by simp [get_new_file_diff, hidx]⟩
  obtain ⟨rest, hrest⟩ := hex
  refine ⟨⟨rest, hrest⟩, by rw [hrest]; exact headerAppend_ne_empty p rest, ?_⟩
  intro hu
  rcases hidx : env.newFileIdxRead p with content | _ | k
  · rw [newFileUnreadable, hidx] at hu
    simp at hu
  · rcases hfs : env.newFileFsRead p with content | k
    · rw [newFileUnreadable, hidx, hfs] at hu
      simp at hu
    · exact ⟨k, by simp [get_new_file_diff, hidx, hfs]⟩
  · exact ⟨k, by simp [get_new_file_diff, hidx]⟩

/-- Witness for `new_file_diff_header_total`, discharging the double-failure
implication at the all-failing environment. -/
theorem new_file_diff_header_total_witness :
    newFileUnreadable noopEnv (str "gone.py") = true ∧
    (∃ k : PyErrKind,
      get_new_file_diff noopEnv (str "gone.py") 100 =
        str "+++ " ++ str "gone.py" ++ str "\n" ++ stubFor k) :=
  ⟨by decide, (new_file_diff_header_total noopEnv (str "gone.py")).2.2 (by decide)⟩

/-! ## C7: the truncation law -/

theorem mkTruncated_long (text : Str) (hlong : 100 < (pySplitOn text NL).length) :
    mkTruncated text 100 =
      (((pySplitOn text NL).take 100).intersperse NL).flatten ++ truncMarker 100 ∧
    ((pySplitOn text NL).take 100).length = 100 := by
  constructor
  · unfold mkTruncated
    dsimp only
    rw [if_pos hlong]
  · rw [List.length_take]
    exact Nat.min_eq_left (Nat.le_of_lt hlong)

/-- C7: whenever the real staged-diff text of a file is longer than 100
lines, `_get_diff_content` returns exactly the first 100 diff lines plus
exactly one truncation-marker line stating that 100 lines were shown;
`_get_new_file_diff` applies the same law to the new-file content (after its
constant `+++ <path>` header line). -/
theorem diff_truncation_law (env : Env) (p q out content : Str)
    (hok : env.stagedDiff p = .ok out)
    (hlong : 100 < (pySplitOn out NL).length)
    (hidx : env.newFileIdxRead q = .ok content)
    (hclong : 100 < (pySplitOn content NL).length) :
    get_diff_content env p 100 =
      (((pySplitOn out NL).take 100).intersperse NL).flatten ++ truncMarker 100 ∧
    ((pySplitOn out NL).take 100).length = 100 ∧
    truncMarker 100 = str "\n... (truncated, showing first 100 lines)" ∧
    get_new_file_diff env q 100 =
      str "+++ " ++ q ++ str "\n" ++
        ((((pySplitOn content NL).take 100).intersperse NL).flatten ++ truncMarker 100) ∧
    ((pySplitOn content NL).take 100).length = 100 := by
  have hne : out ≠ [] := by
    intro hnil
    subst hnil
    revert hlong
    decide
  refine ⟨?_, (mkTruncated_long out hlong).2, by decide, ?_,
    (mkTruncated_long content hclong).2⟩
  · unfold get_diff_content
    rw [hok]
    dsimp only
    rw [if_neg hne]
    exact (mkTruncated_long out hlong).1
  · unfold get_new_file_diff
    rw [hidx]
    dsimp only
    rw [(mkTruncated_long content hclong).1]

/-- A 101-line text (100 newline characters). -/
def bigText : Str := List.replicate 100 '\n'

/-- Environment for the truncation witness: both the staged diff and the
staged blob of every path read as the 101-line `bigText`. -/
def truncEnv : Env :=
  { noopEnv with
    stagedDiff := fun _ => .ok bigText
    newFileIdxRead := fun _ => .ok bigText }

/-- Witness for `diff_truncation_law` at `truncEnv`. -/
theorem diff_truncation_law_witness :
    100 < (pySplitOn bigText NL).length ∧
    ((pySplitOn bigText NL).take 100).length = 100 :=
  ⟨by decide,
    (diff_truncation_law truncEnv (str "f.py") (str "g.py") bigText bigText rfl
      (by decide) rfl (by decide)).2.1⟩

/-! ## C3: fresh-repository completeness -/

/-- The record the status pass produces for a listing line `A\t<p>`. -/
def statusRecA (env : Env) (p : Str) : ChangeRecord :=
  ⟨p, str "added", categorize_file p, (resolveStats env p).1.1, (resolveStats env p).1.2,
    get_diff_content env p 100⟩

/-- The record the fresh-repository new-file pass produces for path `p`. -/
def freshRec (env : Env) (p : Str) : ChangeRecord :=
  ⟨p, str "added", categorize_file p, newFileAdditions env p, 0,
    get_new_file_diff env p 100⟩

theorem pass1Step_A (env : Env) (st : AggState) (p : Str)
    (hsp : pySplit1 (str "A\t" ++ p) = [str "A", p])
    (hfresh : some p ∉ st.processed) :
    pass1Step env st (str "A\t" ++ p) =
      pushRec (markPath st (some p)) (statusRecA env p)
        ((resolveStats env p).2 ++ [stagedDiffCall p]) := by
  unfold pass1Step
  have hne : str "A\t" ++ p ≠ [] := by
    intro hnil
    have hempty : pySplit1 ([] : Str) = [[]] := by decide
    rw [hnil, hempty] at hsp
    exact absurd hsp (by simp)
  rw [if_neg hne, hsp]
  dsimp only
  rw [if_neg hfresh]
  rfl

theorem pass1_A_lines (env : Env) (ps : List Str) (st : AggState)
    (hnd : ps.Nodup)
    (hsplit : ∀ p ∈ ps, pySplit1 (str "A\t" ++ p) = [str "A", p])
    (hfresh : ∀ p ∈ ps, some p ∉ st.processed) :
    ((ps.map (fun p => str "A\t" ++ p)).foldl (pass1Step env) st).files
        = st.files ++ ps.map (statusRecA env) ∧
    ∀ x, x ∈ ((ps.map (fun p => str "A\t" ++ p)).foldl (pass1Step env) st).processed ↔
      (x ∈ st.processed ∨ ∃ p ∈ ps, x = some p) := by
  induction ps generalizing st with
  | nil => simp
  | cons p rest ih =>
    simp only [List.map_cons, List.foldl_cons]
    rw [pass1Step_A env st p (hsplit p (List.mem_cons_self p rest))
      (hfresh p (List.mem_cons_self p rest))]
    have hndr : rest.Nodup := hnd.of_cons
    have hpnotr : p ∉ rest := (List.nodup_cons.mp hnd).1
    have hsplitr : ∀ q ∈ rest, pySplit1 (str "A\t" ++ q) = [str "A", q] :=
      fun q hq => hsplit q (List.mem_cons_of_mem p hq)
    have hfreshr : ∀ q ∈ rest,
        some q ∉ (pushRec (markPath st (some p)) (statusRecA env p)
          ((resolveStats env p).2 ++ [stagedDiffCall p])).processed := by
      intro q hq hmem
      have : some q ∈ some p :: st.processed := hmem
      rcases List.mem_cons.mp this with heq | hmem'
      · exact hpnotr (Option.some.inj heq ▸ hq)
      · exact hfresh q (List.mem_cons_of_mem p hq) hmem'
    obtain ⟨ihf, ihp⟩ := ih _ hndr hsplitr hfreshr
    constructor
    · rw [ihf]
      simp [statusRecA, pushRec, markPath]
    · intro x
      rw [ihp x]
      constructor
      · rintro (hx | ⟨q, hq, rfl⟩)
        · rcases List.mem_cons.mp hx with heq | hx'
          · exact Or.inr ⟨p, List.mem_cons_self p rest, heq⟩
          · exact Or.inl hx'
        · exact Or.inr ⟨q, List.mem_cons_of_mem p hq, rfl⟩
      · rintro (hx | ⟨q, hq, rfl⟩)
        · exact Or.inl (List.mem_cons_of_mem _ hx)
        · rcases List.mem_cons.mp hq with rfl | hq'
          · exact Or.inl (List.mem_cons_self _ _)
          · exact Or.inr ⟨q, hq', rfl⟩

theorem pass3Fresh_all (env : Env) (ps : List Str) (st : AggState)
    (hnd : ps.Nodup) (hne : ∀ p ∈ ps, p ≠ [])
    (hfresh : ∀ p ∈ ps, some p ∉ st.processed) :
    (ps.foldl (pass3FreshStep env) st).files = st.files ++ ps.map (freshRec env) := by
  induction ps generalizing st with
  | nil => simp
  | cons p rest ih =>
    simp only [List.foldl_cons]
    have hcond : ¬ (p = [] ∨ some p ∈ st.processed) := by
      rintro (hnil | hmem)
      · exact hne p (List.mem_cons_self p rest) hnil
      · exact hfresh p (List.mem_cons_self p rest) hmem
    have hstep : pass3FreshStep env st p =
        pushRec (markPath st (some p)) (freshRec env p) [] := by
      unfold pass3FreshStep
      rw [if_neg hcond]
      rfl
    rw [hstep]
    have hndr : rest.Nodup := hnd.of_cons
    have hpnotr : p ∉ rest := (List.nodup_cons.mp hnd).1
    have hner : ∀ q ∈ rest, q ≠ [] := fun q hq => hne q (List.mem_cons_of_mem p hq)
    have hfreshr : ∀ q ∈ rest,
        some q ∉ (pushRec (markPath st (some p)) (freshRec env p) []).processed := by
      intro q hq hmem
      have : some q ∈ some p :: st.processed := hmem
      rcases List.mem_cons.mp this with heq | hmem'
      · exact hpnotr (Option.some.inj heq ▸ hq)
      · exact hfresh q (List.mem_cons_of_mem p hq) hmem'
    rw [ih _ hndr hner hfreshr]
    simp [freshRec, pushRec, markPath]

theorem pass3Fresh_skip (env : Env) (ps : List Str) (st : AggState)
    (h : ∀ q ∈ ps, q = [] ∨ some q ∈ st.processed) :
    ps.foldl (pass3FreshStep env) st = st := by
  induction ps with
  | nil => rfl
  | cons p rest ih =>
    simp only [List.foldl_cons]
    rw [show pass3FreshStep env st p = st from
      by unfold pass3FreshStep; rw [if_pos (h p (List.mem_cons_self p rest))]]
    exact ih (fun q hq => h q (List.mem_cons_of_mem p hq))

theorem pass2_noCommits (env : Env) (st : AggState) (h : env.hasCommits = false) :
    pass2 env st = st := by
  unfold pass2
  rw [h]
  simp

theorem aggFinal_noCommits (env : Env) (h : env.hasCommits = false) :
    aggFinal env =
      (pass3FreshList env).foldl (pass3FreshStep env)
        { pass2 env (pass1 env ⟨[], 0, 0, [], [nameStatusCall]⟩) with
          trace := (pass2 env (pass1 env ⟨[], 0, 0, [], [nameStatusCall]⟩)).trace ++
            [nameOnlyCall] } := by
  unfold aggFinal
  rw [h]
  rfl

/-- C3: in a repository with zero commits and distinct staged paths,
`get_staged_changes` produces exactly one record per path, each typed
`added` with 0 deletions.  The disjunctive hypothesis covers the two
fresh-repository behaviours of the status listing: the call fails on the
unborn HEAD (the new-file pass then enumerates the paths), or it succeeds
listing every path with status `A` (git diffs the index against the empty
tree, so each per-path stat resolves with 0 deletions, and the new-file
pass finds everything already processed). -/
theorem fresh_repo_completeness (env : Env) (paths : List Str)
    (hnc : env.hasCommits = false)
    (hnd : paths.Nodup)
    (hne : ∀ p ∈ paths, p ≠ [])
    (hcase :
      (env.nameStatusOut = none ∧ pass3FreshList env = paths) ∨
      (stagedChangesLines env = paths.map (fun p => str "A\t" ++ p) ∧
       (∀ p ∈ paths, pySplit1 (str "A\t" ++ p) = [str "A", p]) ∧
       (∀ p ∈ paths, (resolveStats env p).1.2 = 0) ∧
       (∀ q ∈ pass3FreshList env, q ∈ paths))) :
    (get_staged_changes env).files.length = paths.length ∧
    (get_staged_changes env).files.map (fun r => r.path) = paths ∧
    ∀ r ∈ (get_staged_changes env).files, r.type = str "added" ∧ r.deletions = 0 := by
  rcases hcase with ⟨hns, hlist⟩ | ⟨hlines, hsplit, hdel, hsub⟩
  · -- the status listing failed; the fresh-repository pass enumerates
    have h1 : pass1 env ⟨[], 0, 0, [], [nameStatusCall]⟩ =
        ⟨[], 0, 0, [], [nameStatusCall]⟩ := by
      unfold pass1 stagedChangesLines
      rw [hns]
      rfl
    have hfiles : (get_staged_changes env).files = paths.map (freshRec env) := by
      show (aggFinal env).files = _
      rw [aggFinal_noCommits env hnc, h1, pass2_noCommits env _ hnc, hlist]
      rw [pass3Fresh_all env paths _ hnd hne (by intro p hp hmem; simp at hmem)]
      rfl
    refine ⟨by rw [hfiles]; simp, ?_, ?_⟩
    · rw [hfiles, List.map_map]
      show List.map (fun p => p) paths = paths
      simp
    · rw [hfiles]
      intro r hr
      obtain ⟨p, hp, rfl⟩ := List.mem_map.mp hr
      exact ⟨rfl, rfl⟩
  · -- the status listing succeeded, all lines `A\t<path>`
    have hpa := pass1_A_lines env paths ⟨[], 0, 0, [], [nameStatusCall]⟩ hnd hsplit
      (by intro p hp hmem; simp at hmem)
    have h1 : pass1 env ⟨[], 0, 0, [], [nameStatusCall]⟩ =
        (paths.map (fun p => str "A\t" ++ p)).foldl (pass1Step env)
          ⟨[], 0, 0, [], [nameStatusCall]⟩ := by
      unfold pass1
      rw [hlines]
    have hfiles : (get_staged_changes env).files = paths.map (statusRecA env) := by
      show (aggFinal env).files = _
      rw [aggFinal_noCommits env hnc, h1, pass2_noCommits env _ hnc]
      rw [pass3Fresh_skip env (pass3FreshList env) _ ?hskip]
      · rw [hpa.1]
        simp
      case hskip =>
        intro q hq
        right
        show some q ∈ ((paths.map (fun p => str "A\t" ++ p)).foldl (pass1Step env)
          ⟨[], 0, 0, [], [nameStatusCall]⟩).processed
        exact (hpa.2 (some q)).mpr (Or.inr ⟨q, hsub q hq, rfl⟩)
    refine ⟨by rw [hfiles]; simp, ?_, ?_⟩
    · rw [hfiles, List.map_map]
      show List.map (fun p => p) paths = paths
      simp
    · rw [hfiles]
      intro r hr
      obtain ⟨p, hp, rfl⟩ := List.mem_map.mp hr
      exact ⟨rfl, hdel p hp⟩

/-- Fresh-repository environment for the C3 witness: no commits, the status
listing raises (unborn HEAD), the `--name-only` enumeration lists two
staged files. -/
def freshEnv : Env :=
  { noopEnv with nameOnlyOut := some (str "a.py\nb.md\n") }

/-- Witness for `fresh_repo_completeness` at `freshEnv` with two staged
paths. -/
theorem fresh_repo_completeness_witness :
    ([str "a.py", str "b.md"] : List Str).Nodup ∧
    (get_staged_changes freshEnv).files.length = 2 ∧
    ∀ r ∈ (get_staged_changes freshEnv).files, r.type = str "added" ∧ r.deletions = 0 := by
  have h := fresh_repo_completeness freshEnv [str "a.py", str "b.md"] rfl
    (by decide) (by decide) (Or.inl ⟨rfl, by decide⟩)
  exact ⟨by decide, h.1, h.2.2⟩

end SmartCommit
